import Mathlib

/-!
Verification of the ACR synthetic-case retrieval and partial-credit scoring
pipeline.  The definitions below are a shallow embedding of the Python
sources: `safe_parse_json` and `extract_procedures` from
`analyze_partial_credit.py` (lines 6-44), the per-row scoring and batch
aggregation loop of `analyze_partial_credit` (lines 98-168), the query
evaluation loop of `test_embedding_accuracy_3desc.py` (lines 33-100), and
the encoder-input construction of `embed_acr.py` (line 36) and
`search_acr.py` (line 18).  Python floats are modelled as rationals (every
division arising here is exact on the inputs of interest); Python sets as
`Finset`; raised exceptions as `Except` errors.
-/

namespace ACR

/-- Model of the Python values that the procedure-JSON parsing stage can
produce: strings, integers, booleans, `None`, lists and string-keyed
dicts. -/
inductive PyVal where
  | pyStr (s : String)
  | pyInt (n : Int)
  | pyBool (b : Bool)
  | pyNone
  | pyList (xs : List PyVal)
  | pyDict (entries : List (String × PyVal))

mutual

/-- Decidable equality on `PyVal` (written by hand: the nested lists defeat
the automatic derivation). -/
def PyVal.decEq : (a b : PyVal) → Decidable (a = b)
  | .pyStr a, .pyStr b =>
      if h : a = b then isTrue (by rw [h]) else isFalse (by simp [h])
  | .pyInt a, .pyInt b =>
      if h : a = b then isTrue (by rw [h]) else isFalse (by simp [h])
  | .pyBool a, .pyBool b =>
      if h : a = b then isTrue (by rw [h]) else isFalse (by simp [h])
  | .pyNone, .pyNone => isTrue rfl
  | .pyList xs, .pyList ys =>
      match PyVal.decEqList xs ys with
      | isTrue h => isTrue (by rw [h])
      | isFalse h => isFalse (by simp [h])
  | .pyDict xs, .pyDict ys =>
      match PyVal.decEqDict xs ys with
      | isTrue h => isTrue (by rw [h])
      | isFalse h => isFalse (by simp [h])
  | .pyStr _, .pyInt _ => isFalse fun h => PyVal.noConfusion h
  | .pyStr _, .pyBool _ => isFalse fun h => PyVal.noConfusion h
  | .pyStr _, .pyNone => isFalse fun h => PyVal.noConfusion h
  | .pyStr _, .pyList _ => isFalse fun h => PyVal.noConfusion h
  | .pyStr _, .pyDict _ => isFalse fun h => PyVal.noConfusion h
  | .pyInt _, .pyStr _ => isFalse fun h => PyVal.noConfusion h
  | .pyInt _, .pyBool _ => isFalse fun h => PyVal.noConfusion h
  | .pyInt _, .pyNone => isFalse fun h => PyVal.noConfusion h
  | .pyInt _, .pyList _ => isFalse fun h => PyVal.noConfusion h
  | .pyInt _, .pyDict _ => isFalse fun h => PyVal.noConfusion h
  | .pyBool _, .pyStr _ => isFalse fun h => PyVal.noConfusion h
  | .pyBool _, .pyInt _ => isFalse fun h => PyVal.noConfusion h
  | .pyBool _, .pyNone => isFalse fun h => PyVal.noConfusion h
  | .pyBool _, .pyList _ => isFalse fun h => PyVal.noConfusion h
  | .pyBool _, .pyDict _ => isFalse fun h => PyVal.noConfusion h
  | .pyNone, .pyStr _ => isFalse fun h => PyVal.noConfusion h
  | .pyNone, .pyInt _ => isFalse fun h => PyVal.noConfusion h
  | .pyNone, .pyBool _ => isFalse fun h => PyVal.noConfusion h
  | .pyNone, .pyList _ => isFalse fun h => PyVal.noConfusion h
  | .pyNone, .pyDict _ => isFalse fun h => PyVal.noConfusion h
  | .pyList _, .pyStr _ => isFalse fun h => PyVal.noConfusion h
  | .pyList _, .pyInt _ => isFalse fun h => PyVal.noConfusion h
  | .pyList _, .pyBool _ => isFalse fun h => PyVal.noConfusion h
  | .pyList _, .pyNone => isFalse fun h => PyVal.noConfusion h
  | .pyList _, .pyDict _ => isFalse fun h => PyVal.noConfusion h
  | .pyDict _, .pyStr _ => isFalse fun h => PyVal.noConfusion h
  | .pyDict _, .pyInt _ => isFalse fun h => PyVal.noConfusion h
  | .pyDict _, .pyBool _ => isFalse fun h => PyVal.noConfusion h
  | .pyDict _, .pyNone => isFalse fun h => PyVal.noConfusion h
  | .pyDict _, .pyList _ => isFalse fun h => PyVal.noConfusion h

/-- Decidable equality on lists of `PyVal`. -/
def PyVal.decEqList : (xs ys : List PyVal) → Decidable (xs = ys)
  | [], [] => isTrue rfl
  | [], _ :: _ => isFalse fun h => List.noConfusion h
  | _ :: _, [] => isFalse fun h => List.noConfusion h
  | x :: xs, y :: ys =>
      match PyVal.decEq x y, PyVal.decEqList xs ys with
      | isTrue h1, isTrue h2 => isTrue (by rw [h1, h2])
      | isFalse h1, _ => isFalse (by simp [h1])
      | _, isFalse h2 => isFalse (by simp [h2])

/-- Decidable equality on dict-entry lists. -/
def PyVal.decEqDict : (xs ys : List (String × PyVal)) → Decidable (xs = ys)
  | [], [] => isTrue rfl
  | [], _ :: _ => isFalse fun h => List.noConfusion h
  | _ :: _, [] => isFalse fun h => List.noConfusion h
  | (k₁, v₁) :: xs, (k₂, v₂) :: ys =>
      if hk : k₁ = k₂ then
        match PyVal.decEq v₁ v₂, PyVal.decEqDict xs ys with
        | isTrue h1, isTrue h2 => isTrue (by rw [hk, h1, h2])
        | isFalse h1, _ => isFalse (by simp [h1])
        | _, isFalse h2 => isFalse (by simp [h2])
      else isFalse (by simp [hk])

end

instance : DecidableEq PyVal := PyVal.decEq

/-- Python truthiness (`if not procedures: ...`): empty containers, the
empty string, zero, `False` and `None` are falsy. -/
def PyVal.truthy : PyVal → Bool
  | .pyStr s => s != ""
  | .pyInt n => n != 0
  | .pyBool b => b
  | .pyNone => false
  | .pyList xs => !xs.isEmpty
  | .pyDict es => !es.isEmpty

mutual

/-- Python `repr`, as used for elements nested inside a container. -/
def PyVal.pyRepr : PyVal → String
  | .pyStr s => "\x27" ++ s ++ "\x27"
  | .pyInt n => toString n
  | .pyBool b => if b then "True" else "False"
  | .pyNone => "None"
  | .pyList xs => "[" ++ String.intercalate ", " (PyVal.reprElems xs) ++ "]"
  | .pyDict es => "\x7b" ++ String.intercalate ", " (PyVal.reprEntries es) ++ "\x7d"

/-- The `repr`s of the elements of a list value. -/
def PyVal.reprElems : List PyVal → List String
  | [] => []
  | x :: xs => PyVal.pyRepr x :: PyVal.reprElems xs

/-- The `repr`s of the key-value entries of a dict value. -/
def PyVal.reprEntries : List (String × PyVal) → List String
  | [] => []
  | (k, v) :: es => ("\x27" ++ k ++ "\x27: " ++ PyVal.pyRepr v) :: PyVal.reprEntries es

end

/-- Python `str(...)`: the identity on strings, `repr`-like elsewhere. -/
def PyVal.str_ : PyVal → String
  | .pyStr s => s
  | v => v.pyRepr

/-- Python `for proc in procedures`: lists iterate their elements, strings
their characters, dicts their keys; numbers, booleans and `None` are not
iterable (iterating them raises `TypeError`). -/
def PyVal.pyIter : PyVal → Option (List PyVal)
  | .pyList xs => some xs
  | .pyStr s => some (s.toList.map fun c => .pyStr c.toString)
  | .pyDict es => some (es.map fun e => .pyStr e.1)
  | _ => Option.none

/-- Outcome of the parsing attempts inside `safe_parse_json`
(analyze_partial_credit.py lines 6-20) on a given input: the input is
missing/NaN (`pd.isna`), `json.loads` succeeds with some value,
`json.loads` fails but `ast.literal_eval` succeeds, or both parsers fail. -/
inductive ParseInput where
  | nanInput
  | jsonOk (v : PyVal)
  | literalOk (v : PyVal)
  | unparsable

/-- Embedding of `safe_parse_json` (analyze_partial_credit.py lines 6-20):
NaN input and a double parse failure both yield the empty list; a
successful parse yields the parsed value.  Every exception is caught, so
the function is total. -/
def safe_parse_json : ParseInput → PyVal
  | .nanInput => .pyList []
  | .jsonOk v => v
  | .literalOk v => v
  | .unparsable => .pyList []

/-- Exceptions that the embedded code can raise. -/
inductive PyErr where
  | typeError
  | zeroDivisionError
  deriving DecidableEq

instance {ε α : Type} [DecidableEq ε] [DecidableEq α] : DecidableEq (Except ε α) :=
  fun a b =>
    match a, b with
    | .ok x, .ok y => if h : x = y then isTrue (by rw [h]) else isFalse (by simp [h])
    | .error x, .error y => if h : x = y then isTrue (by rw [h]) else isFalse (by simp [h])
    | .ok _, .error _ => isFalse fun h => Except.noConfusion h
    | .error _, .ok _ => isFalse fun h => Except.noConfusion h

/-- Python hashability: strings, numbers, booleans and `None` are
hashable; lists and dicts are not, and `set.add` raises `TypeError` on
them. -/
def PyVal.hashable : PyVal → Bool
  | .pyList _ => false
  | .pyDict _ => false
  | _ => true

/-- Python `proc_set.add(v)`: inserts a hashable value, raises `TypeError`
on an unhashable one. -/
def set_add (v : PyVal) (proc_set : Finset PyVal) : Except PyErr (Finset PyVal) :=
  if v.hashable then .ok (insert v proc_set) else .error .typeError

/-- Embedding of one iteration of the extraction loop
(analyze_partial_credit.py lines 30-42).  A dict entry adds its `code`
value and then its `name` value (each via `set.add`, which raises on an
unhashable value); when the accumulated set is still empty afterwards,
`str(proc)` is added (note: the source tests `if not proc_set:`, i.e. the
whole accumulated set, not the contribution of this entry alone).  A
non-dict entry contributes `str(proc)`, always a hashable string. -/
def add_entry (proc_set : Finset PyVal) (proc : PyVal) : Except PyErr (Finset PyVal) :=
  match proc with
  | .pyDict es => do
    let s1 ←
      match es.lookup "code" with
      | some v => set_add v proc_set
      | Option.none => .ok proc_set
    let s2 ←
      match es.lookup "name" with
      | some v => set_add v s1
      | Option.none => .ok s1
    .ok (if s2 = ∅ then insert (PyVal.pyStr proc.str_) s2 else s2)
  | _ => .ok (insert (PyVal.pyStr proc.str_) proc_set)

/-- The extraction loop over the parsed entries, stopping at the first
raised exception. -/
def extract_procedures_loop (items : List PyVal) (proc_set : Finset PyVal) :
    Except PyErr (Finset PyVal) :=
  match items with
  | [] => .ok proc_set
  | proc :: rest => do
    let s ← add_entry proc_set proc
    extract_procedures_loop rest s

/-- Embedding of `extract_procedures` (analyze_partial_credit.py lines
22-44).  A falsy parse result returns the empty set; otherwise the parsed
value is iterated (raising `TypeError` when it is not iterable) and each
entry is folded in by `add_entry` (which raises `TypeError` when a `code`
or `name` value is unhashable). -/
def extract_procedures (input : ParseInput) : Except PyErr (Finset PyVal) :=
  let procedures := safe_parse_json input
  if procedures.truthy = false then .ok ∅
  else
    match procedures.pyIter with
    | Option.none => .error .typeError
    | some items => extract_procedures_loop items ∅

/-- An entry on which `add_entry` raises: a dict whose `code` or `name`
value is unhashable. -/
def bad_entry : PyVal → Bool
  | .pyDict es =>
      (match es.lookup "code" with
        | some v => !v.hashable
        | Option.none => false) ||
      (match es.lookup "name" with
        | some v => !v.hashable
        | Option.none => false)
  | _ => false

/-- Default procedure JSON used by the map lookup with default `[]`
(analyze_partial_credit.py lines 123-124): the default text `[]` parses
via `json.loads` to the empty list. -/
def default_procedure_json : ParseInput := .jsonOk (.pyList [])

/-- Embedding of the condition-level check of `analyze_partial_credit`
(lines 141-146): both variants must have a condition in the map, both
conditions must be truthy (a non-empty string), and they must be equal. -/
def condition_match (condOf : String → Option String) (orig retr : String) : Bool :=
  match condOf orig, condOf retr with
  | some a, some b => a != "" && b != "" && a == b
  | _, _ => false

/-- One per-query scoring outcome, the fields accumulated per row by the
loop in `analyze_partial_credit` (lines 109-146). -/
structure EvalRecord where
  exact_match : Bool
  procedure_match : Bool
  condition_match : Bool
  procedure_precision : ℚ
  procedure_recall : ℚ
  deriving DecidableEq

/-- Embedding of the per-row body of the scoring loop in
`analyze_partial_credit` (lines 109-146), with `procOf` the
`variant_to_procedure` map (as parse outcomes of the stored JSON strings)
and `condOf` the `variant_to_condition` map.  An exact variant match sets
every flag and `precision = recall = 1` and skips the remaining steps
(`continue`); otherwise both procedure sets are extracted (which can
raise), the overlap statistics are computed when both sets are non-empty
and degrade to `0`/`false` when either is empty, and the condition check
runs last. -/
def scoreRow (procOf : String → Option ParseInput) (condOf : String → Option String)
    (orig retr : String) : Except PyErr EvalRecord :=
  if orig = retr then
    .ok ⟨true, true, true, 1, 1⟩
  else do
    let original_procedures ← extract_procedures ((procOf orig).getD default_procedure_json)
    let retrieved_procedures ← extract_procedures ((procOf retr).getD default_procedure_json)
    let cm := condition_match condOf orig retr
    if original_procedures ≠ ∅ ∧ retrieved_procedures ≠ ∅ then
      let intersection := original_procedures ∩ retrieved_procedures
      pure ⟨false, decide (intersection ≠ ∅), cm,
        if retrieved_procedures ≠ ∅ then (intersection.card : ℚ) / retrieved_procedures.card else 0,
        if original_procedures ≠ ∅ then (intersection.card : ℚ) / original_procedures.card else 0⟩
    else
      pure ⟨false, false, cm, 0, 0⟩

/-- Scores a list of (original_variant, retrieved_variant) rows in order,
propagating the first raised exception, as the scoring loop of
`analyze_partial_credit` does. -/
def score_rows (procOf : String → Option ParseInput) (condOf : String → Option String) :
    List (String × String) → Except PyErr (List EvalRecord)
  | [] => .ok []
  | p :: rest => do
    let r ← scoreRow procOf condOf p.1 p.2
    let rs ← score_rows procOf condOf rest
    .ok (r :: rs)

/-- The per-description-type summary assembled by `analyze_partial_credit`
(lines 148-168). -/
structure BatchSummary where
  total_queries : Nat
  exact_matches : Nat
  procedure_matches : Nat
  condition_matches : Nat
  exact_accuracy : ℚ
  procedure_accuracy : ℚ
  condition_accuracy : ℚ
  procedure_precision : ℚ
  procedure_recall : ℚ
  procedure_f1 : ℚ
  deriving DecidableEq

/-- Embedding of the metric computation of `analyze_partial_credit` (lines
148-155) on the accumulated per-row outcomes.  With `total = 0` the very
first division `exact_matches / total` raises `ZeroDivisionError`;
otherwise the three counts become rates, precision and recall are averaged
arithmetically, and F1 is the guarded harmonic mean of the two averages. -/
def aggregate (records : List EvalRecord) : Except PyErr BatchSummary :=
  if records.length = 0 then .error .zeroDivisionError
  else
    let total := records.length
    let exact_matches := (records.filter fun r => r.exact_match).length
    let procedure_matches := (records.filter fun r => r.procedure_match).length
    let condition_matches := (records.filter fun r => r.condition_match).length
    let exact_accuracy := (exact_matches : ℚ) / total
    let procedure_accuracy := (procedure_matches : ℚ) / total
    let condition_accuracy := (condition_matches : ℚ) / total
    let avg_procedure_precision := (records.map fun r => r.procedure_precision).sum / total
    let avg_procedure_recall := (records.map fun r => r.procedure_recall).sum / total
    let procedure_f1 :=
      if avg_procedure_precision + avg_procedure_recall > 0 then
        2 * (avg_procedure_precision * avg_procedure_recall) /
          (avg_procedure_precision + avg_procedure_recall)
      else 0
    .ok ⟨total, exact_matches, procedure_matches, condition_matches,
      exact_accuracy, procedure_accuracy, condition_accuracy,
      avg_procedure_precision, avg_procedure_recall, procedure_f1⟩

/-- Embedding of the body of `analyze_partial_credit` for one description
type (analyze_partial_credit.py lines 98-168): score every
(original_variant, retrieved_variant) row, then reduce the outcomes to a
`BatchSummary`. -/
def analyze_partial_credit (procOf : String → Option ParseInput)
    (condOf : String → Option String) (rows : List (String × String)) :
    Except PyErr BatchSummary := do
  let records ← score_rows procOf condOf rows
  aggregate records

/-- One input row of the synthetic-description evaluation
(test_embedding_accuracy_3desc.py lines 40-42): the expected original
variant and the synthetic description for the current description type
(`none` models a missing/NaN cell). -/
structure QueryRow where
  original_variant : String
  desc : Option String
  deriving DecidableEq

/-- One detail row appended to `all_results`
(test_embedding_accuracy_3desc.py lines 72-81). -/
structure ResultRow where
  original_variant : String
  synthetic_description : String
  retrieved_condition : String
  retrieved_variant : String
  exact_match : Bool
  euclidean_distance : ℚ
  deriving DecidableEq

/-- Mutable state of the per-description-type evaluation loop
(test_embedding_accuracy_3desc.py lines 36-38 and 31). -/
structure EvalState where
  correct_matches : Nat
  total_queries : Nat
  distances : List ℚ
  all_results : List ResultRow
  deriving DecidableEq

/-- Embedding of one iteration of the evaluation loop
(test_embedding_accuracy_3desc.py lines 40-84).  A missing (NaN)
description is skipped before `total_queries` is incremented; otherwise
`total_queries` is incremented and the nearest-neighbour `lookup`
(encode + `LIMIT 1` query, returning retrieved condition, retrieved
variant and distance) is issued.  Only when a result comes back is the
row recorded in `distances`, `correct_matches` and `all_results`; a
missing result leaves everything except `total_queries` unchanged. -/
def evalStep (lookup : String → Option (String × String × ℚ))
    (st : EvalState) (row : QueryRow) : EvalState :=
  match row.desc with
  | Option.none => st
  | some synthetic_desc =>
    let st := { st with total_queries := st.total_queries + 1 }
    match lookup synthetic_desc with
    | some (retrieved_condition, retrieved_variant, distance) =>
      let exact := retrieved_variant = row.original_variant
      { st with
        distances := st.distances ++ [distance],
        correct_matches := st.correct_matches + (if exact then 1 else 0),
        all_results := st.all_results ++
          [⟨row.original_variant, synthetic_desc, retrieved_condition,
            retrieved_variant, exact, distance⟩] }
    | Option.none => st

/-- Embedding of the per-description-type evaluation
(test_embedding_accuracy_3desc.py lines 33-100): fold the loop over the
rows, then compute `accuracy = correct_matches / total_queries` with the
explicit zero-denominator guard of the source (line 87). -/
def evaluate_synthetic_descriptions (lookup : String → Option (String × String × ℚ))
    (rows : List QueryRow) : EvalState × ℚ :=
  let st := rows.foldl (evalStep lookup) ⟨0, 0, [], []⟩
  (st, if st.total_queries > 0 then (st.correct_matches : ℚ) / st.total_queries else 0)

/-- Embedding of the index-build encoder input (embed_acr.py line 36): the
canonical field-combination template applied to a catalog row. -/
def combined_text (condition variant : String) : String :=
  "Condition: " ++ condition ++ " | Clinical Scenario: " ++ variant

/-- Embedding of the query-path encoder input (search_acr.py lines 17-18,
test_embedding_accuracy_3desc.py line 50, test_embedding_accuracy.py lines
39-43): the query string is handed to the encoder raw, with no template
applied. -/
def query_encoder_input (query : String) : String := query

/-- Example variant-to-procedure map realising the specification scenario:
variant `A` maps to procedures `X` and `Y`, variant `B` to `X` and `Z`. -/
def procOfExample : String → Option ParseInput := fun v =>
  if v = "A" then
    some (.jsonOk (.pyList [.pyDict [("code", .pyStr "X")], .pyDict [("code", .pyStr "Y")]]))
  else if v = "B" then
    some (.jsonOk (.pyList [.pyDict [("code", .pyStr "X")], .pyDict [("code", .pyStr "Z")]]))
  else Option.none

/-! Theorems -/

/-- Claim C1, counterexample: the claim that the build path and the query
path hand identically constructed strings to the encoder fails on concrete
data — for the catalog entry with condition `Head Trauma` and variant
`Device selection`, the index-build path embeds the templated combination
while the query path (queried with that very variant text, as in the
`search_acr.py` main block) embeds the raw text, and the two strings
differ. -/
theorem query_path_template_counterexample :
    query_encoder_input "Device selection" ≠
      combined_text "Head Trauma" "Device selection" := by decide

/-- Claim C1, amended: the canonical field-combination template is applied
only on the build path.  The query path passes its text to the encoder
unchanged, and for every condition and variant the templated build-time
string differs from the raw query-time string, so the two paths never
construct the encoder input identically. -/
theorem build_and_query_encoder_inputs_differ (condition variant : String) :
    query_encoder_input variant = variant ∧
    combined_text condition variant ≠ query_encoder_input variant := by
  refine ⟨rfl, fun h => ?_⟩
  have hlen := congrArg String.length h
  simp only [combined_text, query_encoder_input, String.length_append] at hlen
  have h1 : ("Condition: " : String).length = 11 := rfl
  have h2 : (" | Clinical Scenario: " : String).length = 22 := rfl
  omega

/-- Claim C2: when the expected and retrieved variants coincide, the scorer
returns all three match flags true with precision and recall `1`, for every
procedure map and condition map — in particular the procedure-overlap and
condition steps are never evaluated, even when procedure extraction for
those variants would raise. -/
theorem scoreRow_exact_match (procOf : String → Option ParseInput)
    (condOf : String → Option String) (orig retr : String) (h : orig = retr) :
    scoreRow procOf condOf orig retr = .ok ⟨true, true, true, 1, 1⟩ := by
  simp [scoreRow, h]

/-- Claim C2, witness: an exact pair scored against a procedure map whose
extraction would raise a type error still yields the all-true record. -/
theorem scoreRow_exact_match_witness :
    scoreRow (fun _ => some (ParseInput.jsonOk (PyVal.pyInt 5))) (fun _ => Option.none)
      "Q" "Q" = .ok ⟨true, true, true, 1, 1⟩ :=
  scoreRow_exact_match (fun _ => some (ParseInput.jsonOk (PyVal.pyInt 5)))
    (fun _ => Option.none) "Q" "Q" rfl

/-- Claim C6, counterexample: extraction is not exception-free for every
input — the input text `5` parses successfully via `json.loads` to a truthy
number, and iterating it raises a `TypeError` that propagates out of
`extract_procedures`. -/
theorem extract_procedures_raises_on_scalar :
    extract_procedures (ParseInput.jsonOk (PyVal.pyInt 5)) =
      .error PyErr.typeError := rfl

/-- Helper: one extraction step raises exactly on a dict entry whose
`code` or `name` value is unhashable. -/
theorem add_entry_error_iff (proc_set : Finset PyVal) (proc : PyVal) :
    (∃ e, add_entry proc_set proc = .error e) ↔ bad_entry proc = true := by
  cases proc with
  | pyDict es =>
    unfold add_entry bad_entry set_add
    cases hc : es.lookup "code" with
    | some v =>
      cases hv : v.hashable with
      | false => simp [hc, hv, Bind.bind, Except.bind]
      | true =>
        cases hn : es.lookup "name" with
        | some w =>
          cases hw : w.hashable with
          | false => simp [hc, hv, hn, hw, Bind.bind, Except.bind]
          | true => simp [hc, hv, hn, hw, Bind.bind, Except.bind]
        | none => simp [hc, hv, hn, Bind.bind, Except.bind]
    | none =>
      cases hn : es.lookup "name" with
      | some w =>
        cases hw : w.hashable with
        | false => simp [hc, hn, hw, Bind.bind, Except.bind]
        | true => simp [hc, hn, hw, Bind.bind, Except.bind]
      | none => simp [hc, hn, Bind.bind, Except.bind]
  | pyStr s => simp [add_entry, bad_entry]
  | pyInt n => simp [add_entry, bad_entry]
  | pyBool b => simp [add_entry, bad_entry]
  | pyNone => simp [add_entry, bad_entry]
  | pyList xs => simp [add_entry, bad_entry]

/-- Helper: the extraction loop raises exactly when some entry of the
parsed list is a dict with an unhashable `code` or `name` value. -/
theorem extract_procedures_loop_error_iff (items : List PyVal) :
    ∀ proc_set : Finset PyVal,
      (∃ e, extract_procedures_loop items proc_set = .error e) ↔
        items.any bad_entry = true := by
  induction items with
  | nil => intro proc_set; simp [extract_procedures_loop]
  | cons proc rest ih =>
    intro proc_set
    unfold extract_procedures_loop
    cases ha : add_entry proc_set proc with
    | error e =>
      have hbad : bad_entry proc = true := (add_entry_error_iff proc_set proc).mp ⟨e, ha⟩
      simp [Bind.bind, Except.bind, hbad]
    | ok s =>
      have hgood : bad_entry proc = false := by
        cases hb : bad_entry proc with
        | false => rfl
        | true =>
          obtain ⟨e, he⟩ := (add_entry_error_iff proc_set proc).mpr hb
          rw [ha] at he
          exact absurd he (by simp)
      simp [Bind.bind, Except.bind, hgood, ih s]

/-- Claim C6, amended: extraction returns the empty set, without raising,
for missing/NaN input and for input on which both parsers fail; and it
raises (a `TypeError`) exactly when the parsed value is truthy but not
iterable, or when some entry of the parsed iterable is a dict whose
`code` or `name` value is itself unhashable (a list or dict) — so every
malformed input that fails to parse degrades to a set and never raises,
while certain successfully parsed inputs do raise. -/
theorem extract_procedures_degrades_or_type_errors (input : ParseInput) :
    (input = ParseInput.nanInput ∨ input = ParseInput.unparsable →
      extract_procedures input = .ok ∅) ∧
    ((∃ e, extract_procedures input = .error e) ↔
      (safe_parse_json input).truthy = true ∧
        ((safe_parse_json input).pyIter = Option.none ∨
          ∃ items, (safe_parse_json input).pyIter = some items ∧
            items.any bad_entry = true)) := by
  constructor
  · rintro (rfl | rfl) <;> rfl
  · unfold extract_procedures
    cases htr : (safe_parse_json input).truthy with
    | false => simp [htr]
    | true =>
      cases hit : (safe_parse_json input).pyIter with
      | none => simp [htr, hit]
      | some items => simp [htr, hit, extract_procedures_loop_error_iff items ∅]

/-- Claim C6, witness for the amended statement: unparsable input degrades
to the empty set. -/
theorem extract_procedures_degrades_witness :
    extract_procedures ParseInput.unparsable = Except.ok ∅ :=
  (extract_procedures_degrades_or_type_errors ParseInput.unparsable).1 (Or.inr rfl)

/-- Claim C7 (code bug): on the parsed list `[{"code": "X"}, {}]` the
field-less dict is silently dropped — the extracted set is exactly
`{X}` and does not contain the string representation of the empty dict —
because the fallback in `extract_procedures` tests whether the whole
accumulated set is empty (`if not proc_set:`) instead of whether the
current entry contributed anything, contradicting the adjacent source
comment ("Add the whole dict as string if no specific fields"). -/
theorem extract_procedures_drops_fieldless_dict :
    extract_procedures (ParseInput.jsonOk (PyVal.pyList
      [PyVal.pyDict [("code", PyVal.pyStr "X")], PyVal.pyDict []])) =
      .ok {PyVal.pyStr "X"} ∧
    PyVal.pyStr (PyVal.pyDict []).str_ ∉ ({PyVal.pyStr "X"} : Finset PyVal) := by
  exact ⟨by decide, by decide⟩

/-- Claim C8: aggregation of an empty batch raises `ZeroDivisionError` (at
the very first rate computation) instead of returning a summary, for every
procedure and condition map. -/
theorem aggregate_empty_batch_raises (procOf : String → Option ParseInput)
    (condOf : String → Option String) :
    aggregate [] = Except.error PyErr.zeroDivisionError ∧
    analyze_partial_credit procOf condOf [] = Except.error PyErr.zeroDivisionError :=
  ⟨rfl, rfl⟩

/-- Helper: a ratio of a cardinality to the cardinality of a non-empty
finite set is positive exactly when the numerator set is non-empty. -/
theorem div_card_pos_iff (I s : Finset PyVal) (hs : s ≠ ∅) :
    (0 < (I.card : ℚ) / s.card) ↔ I ≠ ∅ := by
  have hs' : 0 < (s.card : ℚ) := by
    exact_mod_cast Finset.card_pos.mpr (Finset.nonempty_iff_ne_empty.mpr hs)
  constructor
  · intro h hI
    rw [hI] at h
    simp at h
  · intro hI
    apply div_pos _ hs'
    exact_mod_cast Finset.card_pos.mpr (Finset.nonempty_iff_ne_empty.mpr hI)

/-- Claim C3: on a non-exact pair whose procedure extractions succeed with
sets `po` and `pr`, the scorer degrades to zero precision/recall and no
procedure match when either set is empty, and otherwise reports
`procedure_match` iff the intersection is inhabited, precision
`|I| / |pr|` and recall `|I| / |po|`. -/
theorem scoreRow_nonexact_overlap (procOf : String → Option ParseInput)
    (condOf : String → Option String) (orig retr : String)
    (po pr : Finset PyVal) (hne : orig ≠ retr)
    (hpo : extract_procedures ((procOf orig).getD default_procedure_json) = .ok po)
    (hpr : extract_procedures ((procOf retr).getD default_procedure_json) = .ok pr) :
    (po = ∅ ∨ pr = ∅ →
      scoreRow procOf condOf orig retr =
        .ok ⟨false, false, condition_match condOf orig retr, 0, 0⟩) ∧
    (po ≠ ∅ → pr ≠ ∅ →
      scoreRow procOf condOf orig retr =
        .ok ⟨false, decide (po ∩ pr ≠ ∅), condition_match condOf orig retr,
          ((po ∩ pr).card : ℚ) / pr.card, ((po ∩ pr).card : ℚ) / po.card⟩) := by
  unfold scoreRow
  rw [if_neg hne]
  simp only [hpo, hpr, Bind.bind, Except.bind, Pure.pure, Except.pure]
  constructor
  · rintro (h | h) <;> simp [h]
  · intro h1 h2
    simp [h1, h2]

/-- Claim C3, witness, realising the specification scenario: expected
variant `A` with procedures `{X, Y}` against retrieved variant `B` with
procedures `{X, Z}` yields no exact match, a procedure match, and precision
and recall both `1/2`. -/
theorem scoreRow_nonexact_overlap_witness :
    scoreRow procOfExample (fun _ => Option.none) "A" "B" =
      .ok ⟨false, true, false, 1/2, 1/2⟩ := by
  have h := (scoreRow_nonexact_overlap procOfExample (fun _ => Option.none) "A" "B"
      {PyVal.pyStr "X", PyVal.pyStr "Y"} {PyVal.pyStr "X", PyVal.pyStr "Z"}
      (by decide) (by decide) (by decide)).2 (by decide) (by decide)
  rw [h]
  rfl

/-- Helper: every record the scorer can produce has non-negative precision
and recall, its precision is positive exactly when its recall is, its
procedure-match flag holds exactly when its precision is positive, and an
exact match forces the procedure and condition flags. -/
theorem scoreRow_facts (procOf : String → Option ParseInput)
    (condOf : String → Option String) (orig retr : String) (r : EvalRecord)
    (h : scoreRow procOf condOf orig retr = .ok r) :
    0 ≤ r.procedure_precision ∧ 0 ≤ r.procedure_recall ∧
    (0 < r.procedure_precision ↔ 0 < r.procedure_recall) ∧
    (r.exact_match = true → r.procedure_match = true ∧ r.condition_match = true) ∧
    (r.procedure_match = true ↔ 0 < r.procedure_precision) := by
  unfold scoreRow at h
  split at h
  · injection h with h
    subst h
    norm_num
  · cases hpo : extract_procedures ((procOf orig).getD default_procedure_json) with
    | error e => rw [hpo] at h; simp [Bind.bind, Except.bind] at h
    | ok po =>
      cases hpr : extract_procedures ((procOf retr).getD default_procedure_json) with
      | error e => rw [hpo, hpr] at h; simp [Bind.bind, Except.bind] at h
      | ok pr =>
        rw [hpo, hpr] at h
        simp only [Bind.bind, Except.bind, Pure.pure, Except.pure] at h
        split at h
        · rename_i hne'
          obtain ⟨h1, h2⟩ := hne'
          rw [if_pos h1, if_pos h2] at h
          injection h with h
          subst h
          have hprec := div_card_pos_iff (po ∩ pr) pr h2
          have hrec := div_card_pos_iff (po ∩ pr) po h1
          refine ⟨?_, ?_, ?_, ?_, ?_⟩
          · positivity
          · positivity
          · simp only [hprec, hrec]
          · intro hex; exact absurd hex (by simp)
          · simp only [hprec, decide_eq_true_eq]
        · injection h with h
          subst h
          norm_num

/-- Claim C10: for every record the scorer produces, the procedure-match
flag, positive precision and positive recall hold together: precision and
recall are zero or positive simultaneously (both numerators are the size
of the same intersection) and the flag is set exactly when they are
positive. -/
theorem scoreRow_match_iff_positive (procOf : String → Option ParseInput)
    (condOf : String → Option String) (orig retr : String) (r : EvalRecord)
    (h : scoreRow procOf condOf orig retr = .ok r) :
    (r.procedure_match = true ↔ 0 < r.procedure_precision) ∧
    (r.procedure_match = true ↔ 0 < r.procedure_recall) := by
  obtain ⟨-, -, h3, -, h5⟩ := scoreRow_facts procOf condOf orig retr r h
  exact ⟨h5, h5.trans h3⟩

/-- Claim C10, witness: the record produced for the scenario pair `A`/`B`
has its match flag, positive precision and positive recall in agreement. -/
theorem scoreRow_match_iff_positive_witness :
    ((⟨false, true, false, 1/2, 1/2⟩ : EvalRecord).procedure_match = true ↔
      0 < (⟨false, true, false, 1/2, 1/2⟩ : EvalRecord).procedure_precision) ∧
    ((⟨false, true, false, 1/2, 1/2⟩ : EvalRecord).procedure_match = true ↔
      0 < (⟨false, true, false, 1/2, 1/2⟩ : EvalRecord).procedure_recall) :=
  scoreRow_match_iff_positive procOfExample (fun _ => Option.none) "A" "B" _ (by rfl)

/-- Helper: a successful `score_rows` run yields exactly one record per
row, each produced by `scoreRow`. -/
theorem score_rows_ok_forall (procOf : String → Option ParseInput)
    (condOf : String → Option String) (rows : List (String × String))
    (records : List EvalRecord) (h : score_rows procOf condOf rows = .ok records) :
    records.length = rows.length ∧
    ∀ r ∈ records, ∃ o t, scoreRow procOf condOf o t = .ok r := by
  induction rows generalizing records with
  | nil =>
    simp only [score_rows, Except.ok.injEq] at h
    subst h
    simp
  | cons p rest ih =>
    unfold score_rows at h
    cases hs : scoreRow procOf condOf p.1 p.2 with
    | error e => rw [hs] at h; simp [Bind.bind, Except.bind] at h
    | ok r =>
      cases hrest : score_rows procOf condOf rest with
      | error e => rw [hs, hrest] at h; simp [Bind.bind, Except.bind] at h
      | ok rs =>
        rw [hs, hrest] at h
        simp only [Bind.bind, Except.bind, Except.ok.injEq] at h
        subst h
        obtain ⟨ih1, ih2⟩ := ih rs hrest
        refine ⟨by simp [ih1], ?_⟩
        intro x hx
        rcases List.mem_cons.mp hx with rfl | hx'
        · exact ⟨p.1, p.2, hs⟩
        · exact ih2 x hx'

/-- Helper: filtering with a pointwise weaker predicate keeps at least as
many elements. -/
theorem filter_length_mono {α : Type} (l : List α) (p q : α → Bool)
    (h : ∀ x ∈ l, p x = true → q x = true) :
    (l.filter p).length ≤ (l.filter q).length := by
  induction l with
  | nil => simp
  | cons a t ih =>
    have iht := ih fun x hx hp => h x (List.mem_cons_of_mem a hx) hp
    by_cases hp : p a = true
    · have hq := h a (List.mem_cons_self a t) hp
      simp [List.filter_cons, hp, hq]
      omega
    · by_cases hq : q a = true <;> simp [List.filter_cons, hp, hq] <;> omega

/-- Helper: a successful `analyze_partial_credit` run factors into a
successful scoring pass and a successful aggregation. -/
theorem analyze_partial_credit_ok (procOf : String → Option ParseInput)
    (condOf : String → Option String) (rows : List (String × String))
    (s : BatchSummary) (h : analyze_partial_credit procOf condOf rows = .ok s) :
    ∃ records : List EvalRecord,
      score_rows procOf condOf rows = .ok records ∧ aggregate records = .ok s := by
  unfold analyze_partial_credit at h
  cases hsr : score_rows procOf condOf rows with
  | error e => rw [hsr] at h; simp [Bind.bind, Except.bind] at h
  | ok records =>
    rw [hsr] at h
    simp only [Bind.bind, Except.bind] at h
    exact ⟨records, rfl, h⟩

/-- Helper: the field equations of a successfully aggregated summary. -/
theorem aggregate_ok (records : List EvalRecord) (s : BatchSummary)
    (h : aggregate records = .ok s) :
    records.length ≠ 0 ∧
    s.exact_accuracy =
      ((records.filter fun r => r.exact_match).length : ℚ) / records.length ∧
    s.procedure_accuracy =
      ((records.filter fun r => r.procedure_match).length : ℚ) / records.length ∧
    s.condition_accuracy =
      ((records.filter fun r => r.condition_match).length : ℚ) / records.length ∧
    s.procedure_precision =
      (records.map fun r => r.procedure_precision).sum / records.length ∧
    s.procedure_recall =
      (records.map fun r => r.procedure_recall).sum / records.length ∧
    s.procedure_f1 =
      (if 0 < s.procedure_precision + s.procedure_recall then
        2 * (s.procedure_precision * s.procedure_recall) /
          (s.procedure_precision + s.procedure_recall)
      else 0) := by
  unfold aggregate at h
  split at h
  · exact absurd h (by simp)
  · rename_i hn
    simp only [Except.ok.injEq] at h
    subst h
    exact ⟨hn, rfl, rfl, rfl, rfl, rfl, rfl⟩

/-- Claim C4: for every non-empty batch that aggregates successfully, the
procedure accuracy and the condition accuracy are both at least the exact
accuracy, because the exact-match branch also counts each exact match as a
procedure match and a condition match. -/
theorem analyze_partial_credit_monotone (procOf : String → Option ParseInput)
    (condOf : String → Option String) (rows : List (String × String))
    (s : BatchSummary) (hne : rows ≠ [])
    (h : analyze_partial_credit procOf condOf rows = .ok s) :
    s.exact_accuracy ≤ s.procedure_accuracy ∧
    s.exact_accuracy ≤ s.condition_accuracy := by
  obtain ⟨records, hsr, hag⟩ := analyze_partial_credit_ok procOf condOf rows s h
  obtain ⟨hn, he, hp, hc, -, -, -⟩ := aggregate_ok records s hag
  obtain ⟨-, hmem⟩ := score_rows_ok_forall procOf condOf rows records hsr
  have himp : ∀ r ∈ records, r.exact_match = true →
      r.procedure_match = true ∧ r.condition_match = true := by
    intro r hr hex
    obtain ⟨o, t, hscore⟩ := hmem r hr
    exact (scoreRow_facts procOf condOf o t r hscore).2.2.2.1 hex
  have hcount1 := filter_length_mono records (fun r => r.exact_match)
    (fun r => r.procedure_match) fun r hr hx => (himp r hr hx).1
  have hcount2 := filter_length_mono records (fun r => r.exact_match)
    (fun r => r.condition_match) fun r hr hx => (himp r hr hx).2
  have hnQ : (0 : ℚ) < records.length := by
    have : 0 < records.length := Nat.pos_of_ne_zero hn
    exact_mod_cast this
  rw [he, hp, hc]
  exact ⟨(div_le_div_iff_of_pos_right hnQ).mpr (by exact_mod_cast hcount1),
         (div_le_div_iff_of_pos_right hnQ).mpr (by exact_mod_cast hcount2)⟩

/-- Claim C4, witness: a singleton exact-match batch aggregates to a
summary whose procedure and condition accuracies dominate its exact
accuracy. -/
theorem analyze_partial_credit_monotone_witness :
    (⟨1, 1, 1, 1, 1, 1, 1, 1, 1, 1⟩ : BatchSummary).exact_accuracy ≤
      (⟨1, 1, 1, 1, 1, 1, 1, 1, 1, 1⟩ : BatchSummary).procedure_accuracy ∧
    (⟨1, 1, 1, 1, 1, 1, 1, 1, 1, 1⟩ : BatchSummary).exact_accuracy ≤
      (⟨1, 1, 1, 1, 1, 1, 1, 1, 1, 1⟩ : BatchSummary).condition_accuracy :=
  analyze_partial_credit_monotone (fun _ => Option.none) (fun _ => Option.none)
    [("A", "A")] ⟨1, 1, 1, 1, 1, 1, 1, 1, 1, 1⟩ (by simp)
    (by
      simp [analyze_partial_credit, score_rows, scoreRow, aggregate, Bind.bind,
        Except.bind, List.filter, List.sum]
      norm_num)

/-- Helper: over records whose precision and recall are each non-negative
and positive together, the two sums are non-negative and vanish
together. -/
theorem records_sum_facts (records : List EvalRecord)
    (hfacts : ∀ r ∈ records, 0 ≤ r.procedure_precision ∧ 0 ≤ r.procedure_recall ∧
      (0 < r.procedure_precision ↔ 0 < r.procedure_recall)) :
    0 ≤ (records.map fun r => r.procedure_precision).sum ∧
    0 ≤ (records.map fun r => r.procedure_recall).sum ∧
    ((records.map fun r => r.procedure_precision).sum = 0 ↔
      (records.map fun r => r.procedure_recall).sum = 0) := by
  induction records with
  | nil => simp
  | cons a t ih =>
    obtain ⟨ha1, ha2, ha3⟩ := hfacts a (List.mem_cons_self a t)
    obtain ⟨ih1, ih2, ih3⟩ := ih fun r hr => hfacts r (List.mem_cons_of_mem a hr)
    have hzero : a.procedure_precision = 0 ↔ a.procedure_recall = 0 := by
      constructor <;> intro hz
      · by_contra hnz
        have hpos : 0 < a.procedure_recall := lt_of_le_of_ne ha2 (Ne.symm hnz)
        have := ha3.mpr hpos
        rw [hz] at this
        exact lt_irrefl 0 this
      · by_contra hnz
        have hpos : 0 < a.procedure_precision := lt_of_le_of_ne ha1 (Ne.symm hnz)
        have := ha3.mp hpos
        rw [hz] at this
        exact lt_irrefl 0 this
    simp only [List.map_cons, List.sum_cons]
    refine ⟨by linarith, by linarith, ?_⟩
    constructor <;> intro hsum
    · have h1 : a.procedure_precision = 0 := by linarith
      have h2 : (t.map fun r => r.procedure_precision).sum = 0 := by linarith
      rw [hzero.mp h1, ih3.mp h2]
      ring
    · have h1 : a.procedure_recall = 0 := by linarith
      have h2 : (t.map fun r => r.procedure_recall).sum = 0 := by linarith
      rw [hzero.mpr h1, ih3.mpr h2]
      ring

/-- Claim C5: for every non-empty batch that aggregates successfully, the
reported F1 equals the harmonic mean `2PR/(P+R)` of the averaged precision
`P` and averaged recall `R` whenever `P + R > 0`, and the reported F1 is
zero exactly when `P` and `R` are both zero (for records produced by this
scorer, `P` and `R` vanish together, so the guarded fallback case is the
only way F1 can be zero). -/
theorem analyze_partial_credit_f1 (procOf : String → Option ParseInput)
    (condOf : String → Option String) (rows : List (String × String))
    (s : BatchSummary) (hne : rows ≠ [])
    (h : analyze_partial_credit procOf condOf rows = .ok s) :
    (0 < s.procedure_precision + s.procedure_recall →
      s.procedure_f1 = 2 * (s.procedure_precision * s.procedure_recall) /
        (s.procedure_precision + s.procedure_recall)) ∧
    (s.procedure_f1 = 0 ↔ s.procedure_precision = 0 ∧ s.procedure_recall = 0) := by
  obtain ⟨records, hsr, hag⟩ := analyze_partial_credit_ok procOf condOf rows s h
  obtain ⟨hn, -, -, -, hP, hR, hf1⟩ := aggregate_ok records s hag
  obtain ⟨-, hmem⟩ := score_rows_ok_forall procOf condOf rows records hsr
  have hfacts : ∀ r ∈ records, 0 ≤ r.procedure_precision ∧ 0 ≤ r.procedure_recall ∧
      (0 < r.procedure_precision ↔ 0 < r.procedure_recall) := by
    intro r hr
    obtain ⟨o, t, hscore⟩ := hmem r hr
    obtain ⟨f1, f2, f3, -, -⟩ := scoreRow_facts procOf condOf o t r hscore
    exact ⟨f1, f2, f3⟩
  obtain ⟨hs1, hs2, hs3⟩ := records_sum_facts records hfacts
  have hnQ : (0 : ℚ) < records.length := by
    have : 0 < records.length := Nat.pos_of_ne_zero hn
    exact_mod_cast this
  have hP0 : 0 ≤ s.procedure_precision := by rw [hP]; positivity
  have hR0 : 0 ≤ s.procedure_recall := by rw [hR]; positivity
  have hPiff : s.procedure_precision = 0 ↔ s.procedure_recall = 0 := by
    rw [hP, hR, div_eq_zero_iff, div_eq_zero_iff]
    have hne' : (records.length : ℚ) ≠ 0 := ne_of_gt hnQ
    simp only [hne', or_false]
    exact hs3
  refine ⟨fun hpos => by rw [hf1, if_pos hpos], ?_⟩
  rw [hf1]
  split
  · rename_i hc
    have hPpos : 0 < s.procedure_precision := by
      rcases lt_or_eq_of_le hP0 with hlt | heq
      · exact hlt
      · exfalso
        have hR' : s.procedure_recall = 0 := hPiff.mp heq.symm
        rw [← heq, hR'] at hc
        simp at hc
    have hRpos : 0 < s.procedure_recall := by
      rcases lt_or_eq_of_le hR0 with hlt | heq
      · exact hlt
      · exfalso
        have hP' : s.procedure_precision = 0 := hPiff.mpr heq.symm
        rw [hP', ← heq] at hc
        simp at hc
    constructor
    · intro h0
      exfalso
      have hnum : 0 < 2 * (s.procedure_precision * s.procedure_recall) := by positivity
      have := div_pos hnum hc
      rw [h0] at this
      exact lt_irrefl 0 this
    · rintro ⟨hPz, -⟩
      exact absurd hPz (ne_of_gt hPpos)
  · rename_i hc
    have hsum0 : s.procedure_precision + s.procedure_recall = 0 := by
      have : 0 ≤ s.procedure_precision + s.procedure_recall := by linarith
      rcases lt_or_eq_of_le this with hlt | heq
      · exact absurd hlt hc
      · exact heq.symm
    have hPz : s.procedure_precision = 0 := by linarith
    have hRz : s.procedure_recall = 0 := by linarith
    simp [hPz, hRz]

/-- Claim C5, witness: a singleton batch realising the overlap scenario
aggregates with averaged precision and recall `1/2` and F1
`2·(1/2·1/2)/(1/2+1/2) = 1/2`, and the F1-zero equivalence holds there. -/
theorem analyze_partial_credit_f1_witness :
    (0 < (⟨1, 0, 1, 0, 0, 1, 0, 1/2, 1/2, 1/2⟩ : BatchSummary).procedure_precision +
        (⟨1, 0, 1, 0, 0, 1, 0, 1/2, 1/2, 1/2⟩ : BatchSummary).procedure_recall →
      (⟨1, 0, 1, 0, 0, 1, 0, 1/2, 1/2, 1/2⟩ : BatchSummary).procedure_f1 =
        2 * ((⟨1, 0, 1, 0, 0, 1, 0, 1/2, 1/2, 1/2⟩ : BatchSummary).procedure_precision *
          (⟨1, 0, 1, 0, 0, 1, 0, 1/2, 1/2, 1/2⟩ : BatchSummary).procedure_recall) /
          ((⟨1, 0, 1, 0, 0, 1, 0, 1/2, 1/2, 1/2⟩ : BatchSummary).procedure_precision +
            (⟨1, 0, 1, 0, 0, 1, 0, 1/2, 1/2, 1/2⟩ : BatchSummary).procedure_recall)) ∧
    ((⟨1, 0, 1, 0, 0, 1, 0, 1/2, 1/2, 1/2⟩ : BatchSummary).procedure_f1 = 0 ↔
      (⟨1, 0, 1, 0, 0, 1, 0, 1/2, 1/2, 1/2⟩ : BatchSummary).procedure_precision = 0 ∧
      (⟨1, 0, 1, 0, 0, 1, 0, 1/2, 1/2, 1/2⟩ : BatchSummary).procedure_recall = 0) :=
  analyze_partial_credit_f1 procOfExample (fun _ => Option.none) [("A", "B")]
    ⟨1, 0, 1, 0, 0, 1, 0, 1/2, 1/2, 1/2⟩ (by simp)
    (by
      have hrow : scoreRow procOfExample (fun _ => Option.none) "A" "B" =
          .ok ⟨false, true, false, 1/2, 1/2⟩ := by rfl
      simp [analyze_partial_credit, score_rows, hrow, aggregate, Bind.bind,
        Except.bind, List.filter, List.sum]
      norm_num)

/-- Helper: each evaluation step increments the denominator whenever the
description is present, and appends a detail row only when the lookup also
returns a result. -/
theorem evalStep_counts (lookup : String → Option (String × String × ℚ))
    (st : EvalState) (row : QueryRow) :
    (evalStep lookup st row).total_queries =
      st.total_queries + (if row.desc.isSome then 1 else 0) ∧
    (evalStep lookup st row).all_results.length =
      st.all_results.length + (if (row.desc.bind lookup).isSome then 1 else 0) := by
  unfold evalStep
  cases hd : row.desc with
  | none => simp [hd]
  | some d =>
    cases hl : lookup d with
    | none => simp [hd, hl]
    | some v =>
      obtain ⟨c, v', dist⟩ := v
      simp [hd, hl]

/-- Helper: folded over a whole batch, the loop counts every row with a
present description in `total_queries` and reports exactly the rows whose
lookup succeeded in `all_results`. -/
theorem evaluate_counts_aux (lookup : String → Option (String × String × ℚ))
    (rows : List QueryRow) :
    ∀ st : EvalState,
      (rows.foldl (evalStep lookup) st).total_queries =
        st.total_queries + (rows.filter fun r => r.desc.isSome).length ∧
      (rows.foldl (evalStep lookup) st).all_results.length =
        st.all_results.length + (rows.filter fun r => (r.desc.bind lookup).isSome).length := by
  induction rows with
  | nil => intro st; simp
  | cons a t ih =>
    intro st
    obtain ⟨s1, s2⟩ := evalStep_counts lookup st a
    obtain ⟨i1, i2⟩ := ih (evalStep lookup st a)
    constructor
    · rw [List.foldl_cons, i1, s1, List.filter_cons]
      split <;> simp <;> omega
    · rw [List.foldl_cons, i2, s2, List.filter_cons]
      split <;> simp <;> omega

/-- Claim C9, counterexample: for a batch containing one query whose
nearest-neighbour lookup yields no result, the evaluator still counts that
query in the accuracy denominator (`total_queries = 1`, so the reported
accuracy is `0/1`, exactly as if it were a false negative) and records it
nowhere — `all_results` is empty and no failed/skipped tally exists. -/
theorem evaluator_missing_result_counterexample :
    (evaluate_synthetic_descriptions (fun _ => Option.none)
      [⟨"V1", some "q"⟩]).1.total_queries = 1 ∧
    (evaluate_synthetic_descriptions (fun _ => Option.none)
      [⟨"V1", some "q"⟩]).1.all_results = [] ∧
    (evaluate_synthetic_descriptions (fun _ => Option.none)
      [⟨"V1", some "q"⟩]).2 = 0 :=
  ⟨rfl, rfl, by simp [evaluate_synthetic_descriptions, evalStep]⟩

/-- Claim C9, amended: a query whose lookup yields no result stays in the
accuracy denominator — `total_queries` counts every row with a present
(non-NaN) description regardless of the lookup outcome — and is silently
omitted from the detail rows with no failed/skipped tally anywhere;
`all_results` reports exactly the queries whose lookup succeeded, so the
rest of the batch still completes and is reported. -/
theorem evaluator_denominator_amended (lookup : String → Option (String × String × ℚ))
    (rows : List QueryRow) :
    (evaluate_synthetic_descriptions lookup rows).1.total_queries =
      (rows.filter fun r => r.desc.isSome).length ∧
    (evaluate_synthetic_descriptions lookup rows).1.all_results.length =
      (rows.filter fun r => (r.desc.bind lookup).isSome).length := by
  obtain ⟨h1, h2⟩ := evaluate_counts_aux lookup rows ⟨0, 0, [], []⟩
  unfold evaluate_synthetic_descriptions
  exact ⟨by simpa using h1, by simpa using h2⟩

end ACR
